import Mathlib

/-
A verification development for `bgio-sqlite` (`src/sqlite.ts`), a SQLite
storage adapter for boardgame.io.

The SQLite database is shallowly embedded: the `matches` table is a list of
`MatchRow` (primary key `id`), the `logs` table is a list of `LogRow` kept in
insertion order together with the auto-increment counter `nextLogId`.
Serialized JSON payloads are modelled by the values themselves: the store
treats `state`, `initialState`, `metadata` and the log entries as opaque,
inspecting only `_stateID`, `gameName` and the presence of `gameover`, so the
JSON round-trip is the identity on this abstraction.  Nullable columns are
`Option`s.  `Date.now()` is passed explicitly as a `now` argument.  Calls that
can raise a SQLite error (`createMatch` on a duplicate id, `setState` on a
foreign-key violation) return `Except`; an error leaves the database
unchanged, which models the transaction rollback performed by better-sqlite3.
-/

namespace BgioSqlite

/-- Opaque serialized game state.  The store inspects only the monotonic
sequence number `_stateID` (the stale-write guard of `setState`); everything
else is the opaque `payload`. -/
structure State where
  _stateID : Int
  payload : Nat
  deriving DecidableEq, Repr

/-- Opaque serialized match metadata.  The store inspects `gameName`
(`opts.metadata.gameName ?? ''` in `createMatch`; the source reads it through
`??`, so it is modelled as optional) and the presence of the optional
`gameover` field (`metadata.gameover !== undefined` in `listMatches`);
everything else is the opaque `payload`. -/
structure MatchData where
  gameName : Option String
  gameover : Option Nat
  payload : Nat
  deriving DecidableEq, Repr

/-- Opaque serialized log entry. -/
structure LogEntry where
  payload : Nat
  deriving DecidableEq, Repr

/-- One row of the `matches` table (`interface MatchRow` in the source). -/
structure MatchRow where
  id : String
  gameName : String
  state : Option State
  initialState : Option State
  metadata : Option MatchData
  createdAt : Int
  updatedAt : Int
  deriving DecidableEq, Repr

/-- One row of the `logs` table (`interface LogRow` in the source);
`id` is the `AUTOINCREMENT` primary key. -/
structure LogRow where
  id : Nat
  matchId : String
  logEntry : LogEntry
  deriving DecidableEq, Repr

/-- The connected database: the two tables created by `connect()`, plus the
auto-increment counter that assigns `logs.id`.  `matchRows` is the `matches`
table (the source name is a Lean keyword).  `logs` is kept in insertion
order; `nextLogId` exceeds every assigned log id, so insertion order and id
order agree (the well-formedness predicate `logsWf` below). -/
structure Store where
  matchRows : List MatchRow
  logs : List LogRow
  nextLogId : Nat
  deriving DecidableEq, Repr

/-- Field selector of `fetch` (`StorageAPI.FetchOpts`); an absent field of the
TS options object is `false`. -/
structure FetchOpts where
  state : Bool
  metadata : Bool
  initialState : Bool
  log : Bool
  deriving DecidableEq, Repr

/-- Result of `fetch` (`StorageAPI.FetchResult`); `none` models a field that
is absent/`undefined` in the returned object. -/
structure FetchFields where
  state : Option State
  metadata : Option MatchData
  initialState : Option State
  log : Option (List LogEntry)
  deriving DecidableEq, Repr

/-- The `where` clause of `listMatches` options (the source field is named
`where`, a Lean keyword, hence `whereClause` below). -/
structure ListWhere where
  isGameover : Option Bool
  updatedBefore : Option Int
  updatedAfter : Option Int
  deriving DecidableEq, Repr

/-- Options of `listMatches` (`StorageAPI.ListMatchesOpts`). -/
structure ListMatchesOpts where
  gameName : Option String
  whereClause : Option ListWhere
  deriving DecidableEq, Repr

/-- `opts?.gameName` — both the options object and the field may be absent. -/
def optGameName (opts : Option ListMatchesOpts) : Option String :=
  opts.bind (fun o => o.gameName)

/-- `opts?.where` — both the options object and the clause may be absent. -/
def optWhere (opts : Option ListMatchesOpts) : Option ListWhere :=
  opts.bind (fun o => o.whereClause)

/-- `createMatch(id, opts)`: inserts one `matches` row with
`state = initialState`, `initialState = initialState`, `metadata = metadata`
and both timestamps `now`.  A duplicate id violates the primary key and the
insert fails (`UNIQUE constraint`), leaving the table unchanged. -/
def createMatch (st : Store) (id : String) (initialState : State)
    (metadata : MatchData) (now : Int) : Except String Store :=
  if st.matchRows.any (fun m => decide (m.id = id)) then
    Except.error "UNIQUE constraint failed"
  else
    Except.ok { st with matchRows := st.matchRows ++
      [{ id := id, gameName := metadata.gameName.getD "",
         state := some initialState, initialState := some initialState,
         metadata := some metadata, createdAt := now, updatedAt := now }] }

/-- The order used by `SELECT logEntry FROM logs WHERE matchId = ? ORDER BY id ASC`. -/
def logIdLe (a b : LogRow) : Prop := a.id ≤ b.id

instance : DecidableRel logIdLe := fun a b => Nat.decLe a.id b.id

/-- The log query of `fetch`: rows of `logs` with the given `matchId`,
ordered by `id` ascending, projected to their entries. -/
def logsForMatch (st : Store) (matchID : String) : List LogEntry :=
  (List.insertionSort logIdLe
    (st.logs.filter (fun lr => decide (lr.matchId = matchID)))).map
      (fun lr => lr.logEntry)

/-- The empty fetch result (`const result = {}`). -/
def emptyFetch : FetchFields :=
  { state := none, metadata := none, initialState := none, log := none }

/-- `fetch(matchID, opts)`: looks up the `matches` row by id; if absent,
returns the empty result.  Otherwise each enabled field is populated from the
row when the column is non-null (`result.state = match.state ? ... : undefined`),
and `log`, when enabled, is loaded by the separate ordered query. -/
def fetch (st : Store) (matchID : String) (opts : FetchOpts) : FetchFields :=
  match st.matchRows.find? (fun m => decide (m.id = matchID)) with
  | none => emptyFetch
  | some row =>
    { state := if opts.state then row.state else none,
      metadata := if opts.metadata then row.metadata else none,
      initialState := if opts.initialState then row.initialState else none,
      log := if opts.log then some (logsForMatch st matchID) else none }

/-- The stale-state guard of `setState` (`SELECT state FROM matches WHERE id = ?`
followed by the `_stateID` comparison).  Stale iff a row exists, its `state`
column is non-null, and the stored sequence number is ≥ the incoming one.
In the source this read-and-check runs BEFORE, and outside of, the write
transaction below. -/
def isStale (st : Store) (id : String) (state : State) : Bool :=
  match st.matchRows.find? (fun m => decide (m.id = id)) with
  | some row =>
    match row.state with
    | some existingState => decide (state._stateID ≤ existingState._stateID)
    | none => false
  | none => false

/-- The `logs` rows inserted for one deltalog batch: consecutive
auto-increment ids starting at `startId`, in batch order. -/
def mkLogRows (startId : Nat) (matchId : String) : List LogEntry → List LogRow
  | [] => []
  | e :: rest =>
    { id := startId, matchId := matchId, logEntry := e } ::
      mkLogRows (startId + 1) matchId rest

/-- The body of `db.transaction(() => ...)` in `setState`: run
`UPDATE matches SET state = ?, updatedAt = ? WHERE id = ?`, then, if the
deltalog is non-empty, insert one `logs` row per entry in batch order.  With
`foreign_keys = ON`, inserting a log row whose `matchId` has no `matches` row
violates the foreign key; better-sqlite3 then rolls the whole transaction
back, so the error case returns the database unchanged. -/
def setStateCommit (st : Store) (id : String) (state : State)
    (deltalog : List LogEntry) (now : Int) : Except String Store :=
  let updated := st.matchRows.map (fun m =>
    if m.id = id then { m with state := some state, updatedAt := now } else m)
  if deltalog.isEmpty then
    Except.ok { st with matchRows := updated }
  else if st.matchRows.any (fun m => decide (m.id = id)) then
    Except.ok { matchRows := updated,
                logs := st.logs ++ mkLogRows st.nextLogId id deltalog,
                nextLogId := st.nextLogId + deltalog.length }
  else
    Except.error "FOREIGN KEY constraint failed"

/-- `setState(id, state, deltalog?)`: if the stale guard fires, return
successfully without touching anything; otherwise run the write transaction. -/
def setState (st : Store) (id : String) (state : State)
    (deltalog : List LogEntry) (now : Int) : Except String Store :=
  if isStale st id state then Except.ok st
  else setStateCommit st id state deltalog now

/-- `setMetadata(id, metadata)`:
`UPDATE matches SET metadata = ?, updatedAt = ? WHERE id = ?`, unconditional;
zero rows are affected when the id does not exist. -/
def setMetadata (st : Store) (id : String) (metadata : MatchData) (now : Int) :
    Store :=
  { st with matchRows := st.matchRows.map (fun m =>
      if m.id = id then { m with metadata := some metadata, updatedAt := now }
      else m) }

/-- `wipe(id)`: `DELETE FROM matches WHERE id = ?`; `ON DELETE CASCADE`
removes the log rows owned by the match. -/
def wipe (st : Store) (id : String) : Store :=
  { st with
    matchRows := st.matchRows.filter (fun m => decide (¬ m.id = id)),
    logs := st.logs.filter (fun lr => decide (¬ lr.matchId = id)) }

/-- The pushable WHERE clauses of `listMatches`: `gameName = ?`,
`updatedAt < ?` for `updatedBefore` and `updatedAt > ?` for `updatedAfter`,
combined by SQL `AND`; an absent filter contributes `1=1`.  The source guards
the gameName clause with `if (opts?.gameName)`, a truthiness test, so an
empty-string gameName is falsy and adds no clause; the two timestamp clauses
are guarded by `!== undefined` and apply to every present value. -/
def pushableFilters (opts : Option ListMatchesOpts) (m : MatchRow) : Bool :=
  (match optGameName opts with
   | some g => if g = "" then true else decide (m.gameName = g)
   | none => true) &&
  (match (optWhere opts).bind (fun w => w.updatedBefore) with
   | some t => decide (m.updatedAt < t)
   | none => true) &&
  (match (optWhere opts).bind (fun w => w.updatedAfter) with
   | some t => decide (t < m.updatedAt)
   | none => true)

/-- The order of `ORDER BY updatedAt DESC`. -/
def updatedDesc (a b : MatchRow) : Prop := b.updatedAt ≤ a.updatedAt

instance : DecidableRel updatedDesc := fun a b => Int.decLe b.updatedAt a.updatedAt

instance : IsTotal MatchRow updatedDesc :=
  ⟨fun a b => le_total b.updatedAt a.updatedAt⟩

instance : IsTrans MatchRow updatedDesc :=
  ⟨fun _ _ _ hab hbc => le_trans hbc hab⟩

/-- The rows returned by the SQL part of `listMatches`:
`SELECT id, metadata FROM matches WHERE <pushable> ORDER BY updatedAt DESC`. -/
def queryRows (st : Store) (opts : Option ListMatchesOpts) : List MatchRow :=
  List.insertionSort updatedDesc (st.matchRows.filter (pushableFilters opts))

/-- The in-memory `isGameover` predicate of `listMatches`: a row with a null
`metadata` column is dropped (`if (!row.metadata) return false`); otherwise
the row is kept iff the presence of `metadata.gameover` matches the requested
boolean. -/
def gameoverKeep (want : Bool) (m : MatchRow) : Bool :=
  match m.metadata with
  | none => false
  | some md =>
    if want then md.gameover.isSome else ! md.gameover.isSome

/-- The in-memory filtering step of `listMatches`: applied only when the
`isGameover` filter is present, as a stable `Array.filter` over the query
rows. -/
def gameoverFilter (opts : Option ListMatchesOpts) (rows : List MatchRow) :
    List MatchRow :=
  match (optWhere opts).bind (fun w => w.isGameover) with
  | none => rows
  | some want => rows.filter (gameoverKeep want)

/-- `listMatches(opts?)`: the pushable filters and ordering run in SQL, the
`isGameover` filter runs in memory, and the surviving rows are projected to
their ids. -/
def listMatches (st : Store) (opts : Option ListMatchesOpts) : List String :=
  (gameoverFilter opts (queryRows st opts)).map (fun m => m.id)

/-- Foreign-key consistency of the database, enforced by `foreign_keys = ON`:
every log row references an existing match row. -/
def fkConsistent (st : Store) : Prop :=
  ∀ lr ∈ st.logs, ∃ m ∈ st.matchRows, m.id = lr.matchId

/-- Auto-increment discipline of the `logs` table: rows are in strictly
increasing id order and every assigned id is below `nextLogId`.  This holds
of the empty table and is preserved by every operation. -/
def logsWf (st : Store) : Prop :=
  List.Sorted (fun a b : LogRow => a.id < b.id) st.logs ∧
    ∀ lr ∈ st.logs, lr.id < st.nextLogId

/-- One `setState` call as it affects the database: a thrown error (a rolled
back transaction) leaves the database unchanged. -/
def setStateRun (st : Store) (id : String) (c : State × List LogEntry)
    (now : Int) : Store :=
  match setState st id c.1 c.2 now with
  | Except.ok st' => st'
  | Except.error _ => st

/-- A sequence of `setState` calls on one match, applied in call order. -/
def applyCalls (st : Store) (id : String) (calls : List (State × List LogEntry))
    (now : Int) : Store :=
  calls.foldl (fun s c => setStateRun s id c now) st

/-- The states of the calls of a sequence that the stale-write guard accepts,
each judged against the database as of its own call. -/
def acceptedCalls (st : Store) (id : String)
    (calls : List (State × List LogEntry)) (now : Int) : List State :=
  match calls with
  | [] => []
  | c :: rest =>
    if isStale st id c.1 then acceptedCalls st id rest now
    else c.1 :: acceptedCalls (setStateRun st id c now) id rest now

/-! ### Generic helper lemmas -/

theorem find?_map_of_id_preserved (l : List MatchRow) (id : String)
    (f : MatchRow → MatchRow) (hf : ∀ m, (f m).id = m.id) :
    (l.map f).find? (fun m => decide (m.id = id))
      = Option.map f (l.find? (fun m => decide (m.id = id))) := by
  have hp : ((fun m : MatchRow => decide (m.id = id)) ∘ f)
      = (fun m : MatchRow => decide (m.id = id)) := by
    funext m
    simp [Function.comp, hf]
  rw [List.find?_map, hp]

theorem update_preserves_id (id : String) (g : MatchRow → MatchRow)
    (hg : ∀ m, (g m).id = m.id) (m : MatchRow) :
    (if m.id = id then g m else m).id = m.id := by
  by_cases h : m.id = id <;> simp [h, hg]

theorem map_update_eq_self (l : List MatchRow) (id : String)
    (g : MatchRow → MatchRow) (h : ∀ m ∈ l, ¬ m.id = id) :
    l.map (fun m => if m.id = id then g m else m) = l := by
  induction l with
  | nil => rfl
  | cons a t ih =>
    have ha := h a (List.mem_cons_self a t)
    simp only [List.map_cons, if_neg ha]
    rw [ih (fun m hm => h m (List.mem_cons_of_mem a hm))]

theorem any_of_find? {l : List MatchRow} {p : MatchRow → Bool} {m : MatchRow}
    (h : l.find? p = some m) : l.any p = true :=
  List.any_eq_true.mpr ⟨m, List.mem_of_find?_eq_some h, List.find?_some h⟩

theorem id_of_find? {l : List MatchRow} {id : String} {m : MatchRow}
    (h : l.find? (fun x => decide (x.id = id)) = some m) : m.id = id := by
  simpa using List.find?_some h

/-! ### Facts about `mkLogRows` -/

theorem mkLogRows_map_logEntry (mid : String) :
    ∀ (n : Nat) (es : List LogEntry),
      (mkLogRows n mid es).map (fun lr => lr.logEntry) = es
  | _, [] => rfl
  | n, e :: rest => by
    simp [mkLogRows, mkLogRows_map_logEntry mid (n + 1) rest]

theorem mem_mkLogRows (mid : String) :
    ∀ (n : Nat) (es : List LogEntry) (lr : LogRow), lr ∈ mkLogRows n mid es →
      lr.matchId = mid ∧ n ≤ lr.id ∧ lr.id < n + es.length
  | n, [], lr, h => by simp [mkLogRows] at h
  | n, e :: rest, lr, h => by
    simp only [mkLogRows, List.mem_cons] at h
    cases h with
    | inl h =>
      subst h
      refine ⟨rfl, Nat.le_refl n, ?_⟩
      simp
    | inr h =>
      obtain ⟨h1, h2, h3⟩ := mem_mkLogRows mid (n + 1) rest lr h
      refine ⟨h1, by omega, by simp at h3 ⊢; omega⟩

theorem mkLogRows_sorted (mid : String) :
    ∀ (n : Nat) (es : List LogEntry),
      List.Sorted (fun a b : LogRow => a.id < b.id) (mkLogRows n mid es)
  | _, [] => List.sorted_nil
  | n, e :: rest => by
    rw [mkLogRows, List.sorted_cons]
    refine ⟨fun b hb => ?_, mkLogRows_sorted mid (n + 1) rest⟩
    have h2 := (mem_mkLogRows mid (n + 1) rest b hb).2.1
    show n < b.id
    omega

theorem mkLogRows_filter_self (mid : String) (n : Nat) (es : List LogEntry) :
    (mkLogRows n mid es).filter (fun lr => decide (lr.matchId = mid))
      = mkLogRows n mid es := by
  rw [List.filter_eq_self]
  intro a ha
  simp [(mem_mkLogRows mid n es a ha).1]

/-! ### Characterizations of the operations -/

theorem logsForMatch_of_sorted (st : Store)
    (h : List.Sorted (fun a b : LogRow => a.id < b.id) st.logs) (i : String) :
    logsForMatch st i
      = (st.logs.filter (fun lr => decide (lr.matchId = i))).map
          (fun lr => lr.logEntry) := by
  unfold logsForMatch
  congr 1
  apply List.Sorted.insertionSort_eq
  exact (h.filter _).imp (fun hab => Nat.le_of_lt hab)

theorem setState_stale (st : Store) (id : String) (s : State)
    (dl : List LogEntry) (now : Int) (h : isStale st id s = true) :
    setState st id s dl now = Except.ok st := by
  simp [setState, h]

theorem setState_not_stale (st : Store) (id : String) (s : State)
    (dl : List LogEntry) (now : Int) (h : isStale st id s = false) :
    setState st id s dl now = setStateCommit st id s dl now := by
  simp [setState, h]

theorem setStateCommit_ok (st : Store) (id : String) (s : State)
    (dl : List LogEntry) (now : Int)
    (h : st.matchRows.any (fun m => decide (m.id = id)) = true) :
    setStateCommit st id s dl now =
      Except.ok
        { matchRows := st.matchRows.map (fun m =>
            if m.id = id then { m with state := some s, updatedAt := now }
            else m),
          logs := st.logs ++ mkLogRows st.nextLogId id dl,
          nextLogId := st.nextLogId + dl.length } := by
  cases dl with
  | nil => simp [setStateCommit, mkLogRows]
  | cons e rest => simp [setStateCommit, h]

theorem lt_of_not_stale {st : Store} {id : String} {s : State} {m : MatchRow}
    {s0 : State}
    (hf : st.matchRows.find? (fun x => decide (x.id = id)) = some m)
    (hm : m.state = some s0) (h : isStale st id s = false) :
    s0._stateID < s._stateID := by
  have h' := h
  simp only [isStale, hf, hm] at h'
  exact not_le.mp (by simpa using h')

theorem setStateCommit_empty (st : Store) (id : String) (s : State) (now : Int) :
    setStateCommit st id s [] now =
      Except.ok { st with matchRows := st.matchRows.map (fun m =>
        if m.id = id then { m with state := some s, updatedAt := now }
        else m) } := by
  simp [setStateCommit]

theorem setStateCommit_fk_error (st : Store) (id : String) (s : State)
    (e : LogEntry) (rest : List LogEntry) (now : Int)
    (hmem : st.matchRows.any (fun m => decide (m.id = id)) = false) :
    setStateCommit st id s (e :: rest) now
      = Except.error "FOREIGN KEY constraint failed" := by
  simp [setStateCommit, hmem]

theorem setStateRun_stale {st : Store} {id : String} {c : State × List LogEntry}
    {now : Int} (h : isStale st id c.1 = true) :
    setStateRun st id c now = st := by
  unfold setStateRun
  rw [setState_stale st id c.1 c.2 now h]

theorem setStateRun_not_stale {st : Store} {id : String}
    (c : State × List LogEntry) (now : Int)
    (h : isStale st id c.1 = false)
    (hmem : st.matchRows.any (fun m => decide (m.id = id)) = true) :
    setStateRun st id c now =
      { matchRows := st.matchRows.map (fun m =>
          if m.id = id then { m with state := some c.1, updatedAt := now }
          else m),
        logs := st.logs ++ mkLogRows st.nextLogId id c.2,
        nextLogId := st.nextLogId + c.2.length } := by
  unfold setStateRun
  rw [setState_not_stale st id c.1 c.2 now h,
    setStateCommit_ok st id c.1 c.2 now hmem]

theorem applyCalls_nil (st : Store) (id : String) (now : Int) :
    applyCalls st id [] now = st := rfl

theorem applyCalls_cons (st : Store) (id : String) (c : State × List LogEntry)
    (rest : List (State × List LogEntry)) (now : Int) :
    applyCalls st id (c :: rest) now
      = applyCalls (setStateRun st id c now) id rest now := rfl

theorem acceptedCalls_cons_stale {st : Store} {id : String}
    {c : State × List LogEntry} {now : Int}
    (rest : List (State × List LogEntry)) (h : isStale st id c.1 = true) :
    acceptedCalls st id (c :: rest) now = acceptedCalls st id rest now := by
  simp [acceptedCalls, h]

theorem acceptedCalls_cons_ok {st : Store} {id : String}
    {c : State × List LogEntry} {now : Int}
    (rest : List (State × List LogEntry)) (h : isStale st id c.1 = false) :
    acceptedCalls st id (c :: rest) now
      = c.1 :: acceptedCalls (setStateRun st id c now) id rest now := by
  simp [acceptedCalls, h]

theorem acceptedCalls_length_le (id : String) (now : Int) :
    ∀ (calls : List (State × List LogEntry)) (st : Store),
      (acceptedCalls st id calls now).length ≤ calls.length
  | [], _ => Nat.le_refl 0
  | c :: rest, st => by
    cases h : isStale st id c.1 with
    | false =>
      rw [acceptedCalls_cons_ok rest h]
      simpa using acceptedCalls_length_le id now rest _
    | true =>
      rw [acceptedCalls_cons_stale rest h]
      exact Nat.le_succ_of_le (acceptedCalls_length_le id now rest st)

theorem logsWf_append_mkLogRows (st : Store) (u : List MatchRow) (id : String)
    (dl : List LogEntry) (h : logsWf st) :
    logsWf { matchRows := u,
             logs := st.logs ++ mkLogRows st.nextLogId id dl,
             nextLogId := st.nextLogId + dl.length } := by
  unfold logsWf at h ⊢
  constructor
  · exact List.pairwise_append.mpr ⟨h.1, mkLogRows_sorted id st.nextLogId dl,
      fun a ha b hb =>
        lt_of_lt_of_le (h.2 a ha) (mem_mkLogRows id st.nextLogId dl b hb).2.1⟩
  · intro lr hlr
    rcases List.mem_append.mp hlr with hold | hnew
    · have hb := h.2 lr hold
      show lr.id < st.nextLogId + dl.length
      omega
    · have hb := (mem_mkLogRows id st.nextLogId dl lr hnew).2.2
      show lr.id < st.nextLogId + dl.length
      omega

theorem logsWf_setState_ok {st st' : Store} {id : String} {s : State}
    {dl : List LogEntry} {now : Int}
    (hok : setState st id s dl now = Except.ok st') (h : logsWf st) :
    logsWf st' := by
  cases hs : isStale st id s with
  | true =>
    rw [setState_stale st id s dl now hs] at hok
    injection hok with h1
    subst h1
    exact h
  | false =>
    rw [setState_not_stale st id s dl now hs] at hok
    cases dl with
    | nil =>
      rw [setStateCommit_empty] at hok
      injection hok with h1
      subst h1
      exact h
    | cons e rest =>
      cases hmem : st.matchRows.any (fun m => decide (m.id = id)) with
      | false =>
        rw [setStateCommit_fk_error st id s e rest now hmem] at hok
        simp at hok
      | true =>
        rw [setStateCommit_ok st id s (e :: rest) now hmem] at hok
        injection hok with h1
        subst h1
        exact logsWf_append_mkLogRows st _ id (e :: rest) h

/-- After an accepted `setState` call, looking up the match returns the row
with the state column overwritten and `updatedAt` refreshed. -/
theorem find?_setStateRun_not_stale {st : Store} {id : String}
    (c : State × List LogEntry) (now : Int) {m : MatchRow}
    (hs : isStale st id c.1 = false)
    (hf : st.matchRows.find? (fun x => decide (x.id = id)) = some m) :
    (setStateRun st id c now).matchRows.find? (fun x => decide (x.id = id))
      = some { m with state := some c.1, updatedAt := now } := by
  have hmem := any_of_find? hf
  have hid := id_of_find? hf
  rw [setStateRun_not_stale c now hs hmem]
  show (st.matchRows.map (fun x =>
      if x.id = id then { x with state := some c.1, updatedAt := now }
      else x)).find? (fun x => decide (x.id = id)) = _
  rw [find?_map_of_id_preserved st.matchRows id
    (fun x => if x.id = id then
      { x with state := some c.1, updatedAt := now } else x)
    (update_preserves_id id
      (fun x => { x with state := some c.1, updatedAt := now })
      (fun _ => rfl)), hf]
  simp [hid]

/-- The monotone-write invariant of a run of `setState` calls on one match:
starting from a row whose state is `s0`, the stored state after the run is the
state of the last accepted call (or still `s0` when none was accepted), every
accepted call's sequence number strictly exceeds `s0`'s, and the final stored
sequence number bounds every accepted call's. -/
theorem applyCalls_state_invariant (id : String) (now : Int) :
    ∀ (calls : List (State × List LogEntry)) (st : Store) (m : MatchRow)
      (s0 : State),
      st.matchRows.find? (fun x => decide (x.id = id)) = some m →
      m.state = some s0 →
      ∃ m' s1,
        (applyCalls st id calls now).matchRows.find?
            (fun x => decide (x.id = id)) = some m' ∧
        m'.state = some s1 ∧
        s0._stateID ≤ s1._stateID ∧
        (acceptedCalls st id calls now = [] → s1 = s0) ∧
        (∀ x ∈ acceptedCalls st id calls now, s0._stateID < x._stateID) ∧
        (acceptedCalls st id calls now ≠ [] →
          s1 ∈ acceptedCalls st id calls now ∧
          ∀ x ∈ acceptedCalls st id calls now, x._stateID ≤ s1._stateID)
  | [], st, m, s0, hf, hm =>
    ⟨m, s0, hf, hm, le_refl _, fun _ => rfl,
      fun x hx => by simp [acceptedCalls] at hx, fun h => absurd rfl h⟩
  | c :: rest, st, m, s0, hf, hm => by
    cases hs : isStale st id c.1 with
    | true =>
      rw [applyCalls_cons, setStateRun_stale hs,
        acceptedCalls_cons_stale rest hs]
      exact applyCalls_state_invariant id now rest st m s0 hf hm
    | false =>
      have hlt := lt_of_not_stale hf hm hs
      have hupd := find?_setStateRun_not_stale c now hs hf
      obtain ⟨m', s1, hf', hm', hle, hnil, hgt, hne⟩ :=
        applyCalls_state_invariant id now rest (setStateRun st id c now)
          { m with state := some c.1, updatedAt := now } c.1 hupd rfl
      rw [applyCalls_cons, acceptedCalls_cons_ok rest hs]
      refine ⟨m', s1, hf', hm', le_of_lt (lt_of_lt_of_le hlt hle), ?_, ?_, ?_⟩
      · intro hcon
        exact absurd hcon (List.cons_ne_nil _ _)
      · intro x hx
        rcases List.mem_cons.mp hx with rfl | hx'
        · exact hlt
        · exact lt_trans hlt (hgt x hx')
      · intro _
        constructor
        · by_cases hrest :
              acceptedCalls (setStateRun st id c now) id rest now = []
          · rw [hrest] at hnil ⊢
            rw [hnil rfl]
            exact List.mem_cons_self _ _
          · exact List.mem_cons_of_mem _ (hne hrest).1
        · intro x hx
          rcases List.mem_cons.mp hx with rfl | hx'
          · exact hle
          · by_cases hrest :
                acceptedCalls (setStateRun st id c now) id rest now = []
            · rw [hrest] at hx'
              cases hx'
            · exact (hne hrest).2 x hx'

/-- Effect of a run of `setState` calls, all accepted, on the match's log:
the readable log grows by the concatenation of the deltalog batches in call
order, each batch kept in its own order. -/
theorem applyCalls_logs (id : String) (now : Int) :
    ∀ (calls : List (State × List LogEntry)) (st : Store) (m : MatchRow),
      logsWf st →
      st.matchRows.find? (fun x => decide (x.id = id)) = some m →
      acceptedCalls st id calls now = calls.map Prod.fst →
      logsWf (applyCalls st id calls now) ∧
      (∃ m', (applyCalls st id calls now).matchRows.find?
          (fun x => decide (x.id = id)) = some m') ∧
      ((applyCalls st id calls now).logs.filter
          (fun lr => decide (lr.matchId = id))).map (fun lr => lr.logEntry)
        = (st.logs.filter (fun lr => decide (lr.matchId = id))).map
            (fun lr => lr.logEntry)
          ++ (calls.map Prod.snd).flatten
  | [], st, m, hwf, hf, _ =>
    ⟨hwf, ⟨m, hf⟩, by rw [applyCalls_nil]; simp⟩
  | c :: rest, st, m, hwf, hf, hacc => by
    cases hs : isStale st id c.1 with
    | true =>
      rw [acceptedCalls_cons_stale rest hs] at hacc
      have h1 := acceptedCalls_length_le id now rest st
      rw [hacc] at h1
      simp at h1
    | false =>
      have hmem := any_of_find? hf
      have hrun := setStateRun_not_stale c now hs hmem
      rw [acceptedCalls_cons_ok rest hs] at hacc
      simp only [List.map_cons, List.cons.injEq] at hacc
      have hupd := find?_setStateRun_not_stale c now hs hf
      have hwf' : logsWf (setStateRun st id c now) := by
        rw [hrun]
        exact logsWf_append_mkLogRows st _ id c.2 hwf
      obtain ⟨hwfF, hexF, hlogF⟩ :=
        applyCalls_logs id now rest (setStateRun st id c now)
          { m with state := some c.1, updatedAt := now } hwf' hupd hacc.2
      rw [applyCalls_cons]
      refine ⟨hwfF, hexF, ?_⟩
      rw [hlogF]
      have hstep : ((setStateRun st id c now).logs.filter
          (fun lr => decide (lr.matchId = id))).map (fun lr => lr.logEntry)
        = (st.logs.filter (fun lr => decide (lr.matchId = id))).map
            (fun lr => lr.logEntry) ++ c.2 := by
        rw [hrun]
        show ((st.logs ++ mkLogRows st.nextLogId id c.2).filter
            (fun lr => decide (lr.matchId = id))).map (fun lr => lr.logEntry)
          = _
        rw [List.filter_append, mkLogRows_filter_self, List.map_append,
          mkLogRows_map_logEntry]
      rw [hstep]
      simp [List.append_assoc]

theorem fetch_eq_of_find? {st : Store} {id : String} {row : MatchRow}
    {opts : FetchOpts}
    (h : st.matchRows.find? (fun m => decide (m.id = id)) = some row) :
    fetch st id opts
      = { state := if opts.state then row.state else none,
          metadata := if opts.metadata then row.metadata else none,
          initialState := if opts.initialState then row.initialState else none,
          log := if opts.log then some (logsForMatch st id) else none } := by
  unfold fetch
  rw [h]

theorem fetch_eq_empty_of_none {st : Store} {id : String} {opts : FetchOpts}
    (h : st.matchRows.find? (fun m => decide (m.id = id)) = none) :
    fetch st id opts = emptyFetch := by
  unfold fetch
  rw [h]

theorem mem_queryRows {st : Store} {opts : Option ListMatchesOpts}
    {m : MatchRow} :
    m ∈ queryRows st opts ↔ m ∈ st.matchRows ∧ pushableFilters opts m = true := by
  unfold queryRows
  rw [List.mem_insertionSort, List.mem_filter]

theorem gameoverFilter_none {opts : Option ListMatchesOpts}
    {rows : List MatchRow}
    (h : (optWhere opts).bind (fun w => w.isGameover) = none) :
    gameoverFilter opts rows = rows := by
  simp [gameoverFilter, h]

theorem gameoverFilter_some {opts : Option ListMatchesOpts}
    {rows : List MatchRow} {want : Bool}
    (h : (optWhere opts).bind (fun w => w.isGameover) = some want) :
    gameoverFilter opts rows = rows.filter (gameoverKeep want) := by
  simp [gameoverFilter, h]

theorem gameoverFilter_sublist (opts : Option ListMatchesOpts)
    (rows : List MatchRow) :
    List.Sublist (gameoverFilter opts rows) rows := by
  cases h : (optWhere opts).bind (fun w => w.isGameover) with
  | none => rw [gameoverFilter_none h]
  | some want =>
    rw [gameoverFilter_some h]
    exact List.filter_sublist rows

theorem pushableFilters_eq_true_iff (opts : Option ListMatchesOpts)
    (m : MatchRow) :
    pushableFilters opts m = true ↔
      ((∀ g, optGameName opts = some g → g ≠ "" → m.gameName = g) ∧
       (∀ t, (optWhere opts).bind (fun w => w.updatedBefore) = some t →
         m.updatedAt < t) ∧
       (∀ t, (optWhere opts).bind (fun w => w.updatedAfter) = some t →
         t < m.updatedAt)) := by
  unfold pushableFilters
  cases hg : optGameName opts with
  | none =>
    cases hb : (optWhere opts).bind (fun w => w.updatedBefore) <;>
      cases ha : (optWhere opts).bind (fun w => w.updatedAfter) <;>
        simp [and_assoc]
  | some g =>
    by_cases hge : g = "" <;>
      cases hb : (optWhere opts).bind (fun w => w.updatedBefore) <;>
        cases ha : (optWhere opts).bind (fun w => w.updatedAfter) <;>
          simp [hge, and_assoc]

theorem gameoverKeep_eq_true_iff (want : Bool) (m : MatchRow) :
    gameoverKeep want m = true ↔
      ∃ md, m.metadata = some md ∧ md.gameover.isSome = want := by
  unfold gameoverKeep
  cases hmd : m.metadata with
  | none => simp
  | some md => cases want <;> simp

theorem map_proj_update {β : Type} (l : List MatchRow) (id : String)
    (g : MatchRow → MatchRow) (proj : MatchRow → β)
    (hpg : ∀ m, proj (g m) = proj m) :
    (l.map (fun m => if m.id = id then g m else m)).map proj = l.map proj := by
  rw [List.map_map]
  apply List.map_congr_left
  intro m _
  by_cases h : m.id = id <;> simp [Function.comp, h, hpg]

theorem matchRows_of_setState_ok {st st' : Store} {id : String} {s : State}
    {dl : List LogEntry} {now : Int}
    (hok : setState st id s dl now = Except.ok st') :
    st' = st ∨ st'.matchRows = st.matchRows.map (fun m =>
      if m.id = id then { m with state := some s, updatedAt := now }
      else m) := by
  cases hs : isStale st id s with
  | true =>
    rw [setState_stale st id s dl now hs] at hok
    injection hok with h
    subst h
    exact Or.inl rfl
  | false =>
    rw [setState_not_stale st id s dl now hs] at hok
    cases dl with
    | nil =>
      rw [setStateCommit_empty] at hok
      injection hok with h
      subst h
      exact Or.inr rfl
    | cons e rest =>
      cases hmem : st.matchRows.any (fun m => decide (m.id = id)) with
      | false =>
        rw [setStateCommit_fk_error st id s e rest now hmem] at hok
        simp at hok
      | true =>
        rw [setStateCommit_ok st id s (e :: rest) now hmem] at hok
        injection hok with h
        subst h
        exact Or.inr rfl

/-! ### The claims -/

/-- C1, counterexample to the claim as stated: in a store whose single match
row has a NULL metadata column, requesting the filter `isGameover = false`
does NOT include the match — `listMatches` omits it, because the in-memory
filter drops every row whose metadata is null regardless of the requested
boolean. -/
theorem c1_counterexample :
    (⟨"m1", "g", none, none, none, 0, 0⟩ : MatchRow)
        ∈ (⟨[⟨"m1", "g", none, none, none, 0, 0⟩], [], 0⟩ : Store).matchRows
    ∧ "m1" ∉ listMatches
        (⟨[⟨"m1", "g", none, none, none, 0, 0⟩], [], 0⟩ : Store)
        (some ⟨none, some ⟨some false, none, none⟩⟩) := by
  decide

/-- C1 (amended): when `listMatches` is called with the `isGameover` filter
set — to either boolean — a match row whose metadata column is NULL is
excluded from the result; in particular it is excluded when `isGameover =
true` is requested, as the claim states, but also when `isGameover = false`
is requested. -/
theorem c1_null_metadata_excluded (st : Store) (opts : Option ListMatchesOpts)
    (m : MatchRow) (b : Bool)
    (hnd : (st.matchRows.map (fun x => x.id)).Nodup)
    (hgo : (optWhere opts).bind (fun w => w.isGameover) = some b)
    (hm : m ∈ st.matchRows) (hmd : m.metadata = none) :
    m.id ∉ listMatches st opts := by
  intro hmem
  unfold listMatches at hmem
  rw [gameoverFilter_some hgo] at hmem
  obtain ⟨x, hx, hxid⟩ := List.mem_map.mp hmem
  rw [List.mem_filter] at hx
  have hxq : x ∈ st.matchRows := (mem_queryRows.mp hx.1).1
  have hxm : x = m := List.inj_on_of_nodup_map hnd hxq hm hxid
  have hkeep := hx.2
  rw [hxm] at hkeep
  simp [gameoverKeep, hmd] at hkeep

theorem c1_null_metadata_excluded_witness :
    "m1" ∉ listMatches
        (⟨[⟨"m1", "g", none, none, none, 0, 0⟩], [], 0⟩ : Store)
        (some ⟨none, some ⟨some true, none, none⟩⟩) :=
  c1_null_metadata_excluded
    (⟨[⟨"m1", "g", none, none, none, 0, 0⟩], [], 0⟩ : Store)
    (some ⟨none, some ⟨some true, none, none⟩⟩)
    (⟨"m1", "g", none, none, none, 0, 0⟩ : MatchRow) true
    (by decide) (by decide) (by decide) (by decide)

/-- C2: when the stored state of a match exists and its sequence number is at
least the incoming one, `setState` returns successfully with the entire
database unchanged (no state, timestamp, metadata or log modification and no
log-batch append); consequently, over any sequence of `setState` calls on the
match, the final stored state's sequence number is attained by an accepted
call and bounds the sequence number of every accepted call — it is the
maximum over the accepted calls. -/
theorem c2_stale_noop_and_max (st : Store) (id : String) (m : MatchRow)
    (s0 : State) (now : Int)
    (hf : st.matchRows.find? (fun x => decide (x.id = id)) = some m)
    (hm : m.state = some s0) :
    (∀ s dl, s._stateID ≤ s0._stateID →
      setState st id s dl now = Except.ok st) ∧
    (∀ calls : List (State × List LogEntry),
      acceptedCalls st id calls now ≠ [] →
      ∃ m' s1,
        (applyCalls st id calls now).matchRows.find?
            (fun x => decide (x.id = id)) = some m' ∧
        m'.state = some s1 ∧
        s1 ∈ acceptedCalls st id calls now ∧
        ∀ x ∈ acceptedCalls st id calls now, x._stateID ≤ s1._stateID) := by
  constructor
  · intro s dl hle
    have hst : isStale st id s = true := by
      simp only [isStale, hf, hm]
      exact decide_eq_true hle
    exact setState_stale st id s dl now hst
  · intro calls hne
    obtain ⟨m', s1, hf', hm', _, _, _, hfin⟩ :=
      applyCalls_state_invariant id now calls st m s0 hf hm
    obtain ⟨hmem, hbound⟩ := hfin hne
    exact ⟨m', s1, hf', hm', hmem, hbound⟩

theorem c2_stale_noop_and_max_witness :
    setState (⟨[⟨"m", "g", some ⟨5, 0⟩, none, none, 0, 0⟩], [], 0⟩ : Store)
        "m" ⟨3, 1⟩ [⟨7⟩] 9
      = Except.ok
        (⟨[⟨"m", "g", some ⟨5, 0⟩, none, none, 0, 0⟩], [], 0⟩ : Store) :=
  (c2_stale_noop_and_max
    (⟨[⟨"m", "g", some ⟨5, 0⟩, none, none, 0, 0⟩], [], 0⟩ : Store)
    "m" (⟨"m", "g", some ⟨5, 0⟩, none, none, 0, 0⟩ : MatchRow) ⟨5, 0⟩ 9
    (by decide) (by decide)).1 ⟨3, 1⟩ [⟨7⟩] (by decide)

/-- The transaction body of `setState` as a database transformer: an error
(the rolled back transaction) leaves the database unchanged.  Used to run
interleavings of the guard reads and transaction bodies of two concurrent
`setState` calls, as they can occur when the database file is shared. -/
def commitRun (st : Store) (id : String) (s : State) (dl : List LogEntry)
    (now : Int) : Store :=
  match setStateCommit st id s dl now with
  | Except.ok st' => st'
  | Except.error _ => st

/-- The database for the write-race scenario: one match whose stored state
has sequence number 0. -/
def raceStore : Store :=
  ⟨[⟨"m", "g", some ⟨0, 0⟩, none, none, 0, 0⟩], [], 0⟩

/-- Writer A's incoming state, sequence number 2. -/
def raceA : State := ⟨2, 10⟩

/-- Writer B's incoming state, sequence number 1. -/
def raceB : State := ⟨1, 11⟩

/-- C3 fails on the code: `setState` is, definitionally, the stale-check
guard followed by the separate transaction body — the guard's read is NOT
inside the transaction scope.  Hence in the interleaving check-A, check-B,
commit-A, commit-B of two concurrent writers on the same match, both guards
pass against the untouched store, and writer B's older state (sequence 1)
overwrites writer A's newer one (sequence 2): both writers believe their
write is newer and both apply, out of order.  Had B's guard run after A's
commit — as it does when the calls are sequential — B would have been
rejected as stale, as the last conjunct shows. -/
theorem c3_guard_outside_transaction :
    (∀ st id s dl now, setState st id s dl now =
      if isStale st id s then Except.ok st
      else setStateCommit st id s dl now) ∧
    isStale raceStore "m" raceA = false ∧
    isStale raceStore "m" raceB = false ∧
    (((commitRun (commitRun raceStore "m" raceA [] 5) "m" raceB [] 6
        ).matchRows.find? (fun x => decide (x.id = "m"))).bind
          (fun x => x.state)) = some raceB ∧
    raceB._stateID < raceA._stateID ∧
    setState (commitRun raceStore "m" raceA [] 5) "m" raceB [] 6
      = Except.ok (commitRun raceStore "m" raceA [] 5) := by
  refine ⟨fun st id s dl now => rfl, by decide, by decide, by decide,
    by decide, by rfl⟩

/-- C4: over a sequence of `setState` calls on one match that are all
accepted by the guard, fetching the match with the log field enabled returns
the log as it stood before the calls followed by every appended batch, in
call order, each batch in its own order. -/
theorem c4_log_order (st : Store) (id : String) (m : MatchRow)
    (calls : List (State × List LogEntry)) (now : Int)
    (hwf : logsWf st)
    (hf : st.matchRows.find? (fun x => decide (x.id = id)) = some m)
    (hacc : acceptedCalls st id calls now = calls.map Prod.fst) :
    (fetch (applyCalls st id calls now) id ⟨false, false, false, true⟩).log
      = some (logsForMatch st id ++ (calls.map Prod.snd).flatten) := by
  obtain ⟨hwfF, ⟨m', hf'⟩, hlog⟩ :=
    applyCalls_logs id now calls st m hwf hf hacc
  rw [fetch_eq_of_find? hf']
  show some (logsForMatch (applyCalls st id calls now) id) = _
  rw [logsForMatch_of_sorted _ hwfF.1, hlog, logsForMatch_of_sorted _ hwf.1]

theorem c4_log_order_witness :
    (fetch (applyCalls
        (⟨[⟨"m", "g", some ⟨0, 0⟩, none, none, 0, 0⟩], [], 0⟩ : Store) "m"
        [(⟨1, 0⟩, [⟨100⟩, ⟨101⟩]), (⟨2, 0⟩, [⟨102⟩])] 9) "m"
        ⟨false, false, false, true⟩).log
      = some [⟨100⟩, ⟨101⟩, ⟨102⟩] := by
  have h := c4_log_order
    (⟨[⟨"m", "g", some ⟨0, 0⟩, none, none, 0, 0⟩], [], 0⟩ : Store) "m"
    (⟨"m", "g", some ⟨0, 0⟩, none, none, 0, 0⟩ : MatchRow)
    [(⟨1, 0⟩, [⟨100⟩, ⟨101⟩]), (⟨2, 0⟩, [⟨102⟩])] 9
    ⟨List.sorted_nil, by simp⟩ (by decide) (by decide)
  rw [h]
  decide

/-- Fetching with every field enabled, when the row exists and no log rows
belong to the id, returns the row's three payload columns and an empty log. -/
theorem fetch_all_of_find?_of_no_logs {st : Store} {id : String}
    {row : MatchRow}
    (hf : st.matchRows.find? (fun m => decide (m.id = id)) = some row)
    (hl : st.logs.filter (fun lr => decide (lr.matchId = id)) = []) :
    fetch st id ⟨true, true, true, true⟩
      = { state := row.state, metadata := row.metadata,
          initialState := row.initialState, log := some [] } := by
  rw [fetch_eq_of_find? hf]
  have hlog : logsForMatch st id = [] := by
    unfold logsForMatch
    rw [hl]
    rfl
  rw [hlog]
  rfl

/-- C5: after a successful `createMatch`, fetching the id with every field
enabled returns the created match: state and initialState both equal the
initial state passed to create, metadata equals the metadata passed to
create, and the log is empty. -/
theorem c5_create_fetch_roundtrip (st st' : Store) (id : String)
    (init : State) (md : MatchData) (now : Int)
    (hfk : fkConsistent st)
    (hok : createMatch st id init md now = Except.ok st') :
    fetch st' id ⟨true, true, true, true⟩
      = { state := some init, metadata := some md,
          initialState := some init, log := some [] } := by
  unfold createMatch at hok
  cases hmem : st.matchRows.any (fun m => decide (m.id = id)) with
  | true =>
    rw [if_pos hmem] at hok
    simp at hok
  | false =>
    rw [if_neg (by simp [hmem])] at hok
    injection hok with h1
    subst h1
    have hnoid : ∀ x ∈ st.matchRows, ¬ x.id = id := by
      have hall := List.any_eq_false.mp hmem
      intro x hx
      simpa using hall x hx
    have hnone : st.matchRows.find? (fun m => decide (m.id = id)) = none := by
      rw [List.find?_eq_none]
      intro x hx
      simpa using hnoid x hx
    have hfind : ({ st with matchRows := st.matchRows ++
        [{ id := id, gameName := md.gameName.getD "", state := some init,
           initialState := some init, metadata := some md, createdAt := now,
           updatedAt := now }] } : Store).matchRows.find?
          (fun m => decide (m.id = id))
        = some { id := id, gameName := md.gameName.getD "",
                 state := some init, initialState := some init,
                 metadata := some md, createdAt := now,
                 updatedAt := now } := by
      show (st.matchRows ++ [_]).find?
        (fun m : MatchRow => decide (m.id = id)) = _
      rw [List.find?_append, hnone, Option.none_or]
      simp
    have hlogs : st.logs.filter (fun lr => decide (lr.matchId = id)) = [] := by
      rw [List.filter_eq_nil_iff]
      intro lr hlr
      obtain ⟨pm, hpm, hpmid⟩ := hfk lr hlr
      simp only [decide_eq_true_eq]
      intro hcontra
      exact hnoid pm hpm (by rw [hpmid, hcontra])
    exact fetch_all_of_find?_of_no_logs hfind hlogs

theorem c5_create_fetch_roundtrip_witness :
    fetch (⟨[⟨"mw", "gn", some ⟨0, 3⟩, some ⟨0, 3⟩,
            some ⟨some "gn", none, 4⟩, 7, 7⟩], [], 0⟩ : Store) "mw"
        ⟨true, true, true, true⟩
      = { state := some ⟨0, 3⟩, metadata := some ⟨some "gn", none, 4⟩,
          initialState := some ⟨0, 3⟩, log := some [] } :=
  c5_create_fetch_roundtrip (⟨[], [], 0⟩ : Store)
    (⟨[⟨"mw", "gn", some ⟨0, 3⟩, some ⟨0, 3⟩,
       some ⟨some "gn", none, 4⟩, 7, 7⟩], [], 0⟩ : Store) "mw"
    ⟨0, 3⟩ ⟨some "gn", none, 4⟩ 7
    (by intro lr hlr; exact absurd hlr (List.not_mem_nil lr)) (by rfl)

/-- C6: `fetch` populates only the fields enabled by the selector — a
disabled field is never populated, for every selector — and when no match
row exists for the id it returns the empty result, without an error. -/
theorem c6_field_selection (st : Store) (matchID : String) (opts : FetchOpts) :
    (opts.state = false → (fetch st matchID opts).state = none) ∧
    (opts.metadata = false → (fetch st matchID opts).metadata = none) ∧
    (opts.initialState = false →
      (fetch st matchID opts).initialState = none) ∧
    (opts.log = false → (fetch st matchID opts).log = none) ∧
    (st.matchRows.find? (fun m => decide (m.id = matchID)) = none →
      fetch st matchID opts = emptyFetch) := by
  cases hf : st.matchRows.find? (fun m => decide (m.id = matchID)) with
  | none =>
    rw [fetch_eq_empty_of_none hf]
    exact ⟨fun _ => rfl, fun _ => rfl, fun _ => rfl, fun _ => rfl,
      fun _ => rfl⟩
  | some row =>
    rw [fetch_eq_of_find? hf]
    refine ⟨fun h => ?_, fun h => ?_, fun h => ?_, fun h => ?_,
      fun h => ?_⟩
    · show (if opts.state then row.state else none) = none
      rw [h]
      rfl
    · show (if opts.metadata then row.metadata else none) = none
      rw [h]
      rfl
    · show (if opts.initialState then row.initialState else none) = none
      rw [h]
      rfl
    · show (if opts.log then some (logsForMatch st matchID) else none) = none
      rw [h]
      rfl
    · simp at h

theorem c6_field_selection_witness :
    fetch (⟨[], [], 0⟩ : Store) "x" ⟨true, true, true, true⟩ = emptyFetch :=
  (c6_field_selection (⟨[], [], 0⟩ : Store) "x"
    ⟨true, true, true, true⟩).2.2.2.2 (by decide)

/-- C7: on an id with no match row, `setMetadata` and `wipe` return without
an error and leave the entire database unchanged. -/
theorem c7_unknown_id_mutation_noop (st : Store) (id : String)
    (md : MatchData) (now : Int) (hfk : fkConsistent st)
    (hno : ∀ m ∈ st.matchRows, ¬ m.id = id) :
    setMetadata st id md now = st ∧ wipe st id = st := by
  constructor
  · unfold setMetadata
    rw [map_update_eq_self st.matchRows id _ hno]
  · unfold wipe
    have h1 : st.matchRows.filter (fun m => decide (¬ m.id = id))
        = st.matchRows := by
      rw [List.filter_eq_self]
      intro a ha
      simpa using hno a ha
    have h2 : st.logs.filter (fun lr => decide (¬ lr.matchId = id))
        = st.logs := by
      rw [List.filter_eq_self]
      intro lr hlr
      obtain ⟨pm, hpm, hpmid⟩ := hfk lr hlr
      simp only [decide_eq_true_eq]
      intro hcontra
      exact hno pm hpm (by rw [hpmid, hcontra])
    rw [h1, h2]

theorem c7_unknown_id_mutation_noop_witness :
    setMetadata (⟨[], [], 0⟩ : Store) "x" ⟨some "g", none, 0⟩ 5
        = (⟨[], [], 0⟩ : Store) ∧
    wipe (⟨[], [], 0⟩ : Store) "x" = (⟨[], [], 0⟩ : Store) :=
  c7_unknown_id_mutation_noop (⟨[], [], 0⟩ : Store) "x" ⟨some "g", none, 0⟩ 5
    (by intro lr hlr; exact absurd hlr (List.not_mem_nil lr))
    (by intro m hm; exact absurd hm (List.not_mem_nil m))

/-- C8: `setState` overwrites only the state column and the last-update
timestamp of the match rows, and `setMetadata` overwrites only the metadata
column and the last-update timestamp; in particular the initialState stored
at creation (and, for `setMetadata`, also the state) is modified by neither
operation. -/
theorem c8_initialState_immutable (st st' : Store) (id : String) (s : State)
    (dl : List LogEntry) (md : MatchData) (now : Int) :
    (setState st id s dl now = Except.ok st' →
      st'.matchRows.map (fun m => m.id) = st.matchRows.map (fun m => m.id) ∧
      st'.matchRows.map (fun m => m.gameName)
        = st.matchRows.map (fun m => m.gameName) ∧
      st'.matchRows.map (fun m => m.initialState)
        = st.matchRows.map (fun m => m.initialState) ∧
      st'.matchRows.map (fun m => m.metadata)
        = st.matchRows.map (fun m => m.metadata) ∧
      st'.matchRows.map (fun m => m.createdAt)
        = st.matchRows.map (fun m => m.createdAt)) ∧
    ((setMetadata st id md now).matchRows.map (fun m => m.id)
        = st.matchRows.map (fun m => m.id) ∧
     (setMetadata st id md now).matchRows.map (fun m => m.gameName)
        = st.matchRows.map (fun m => m.gameName) ∧
     (setMetadata st id md now).matchRows.map (fun m => m.initialState)
        = st.matchRows.map (fun m => m.initialState) ∧
     (setMetadata st id md now).matchRows.map (fun m => m.state)
        = st.matchRows.map (fun m => m.state) ∧
     (setMetadata st id md now).matchRows.map (fun m => m.createdAt)
        = st.matchRows.map (fun m => m.createdAt)) := by
  constructor
  · intro hok
    rcases matchRows_of_setState_ok hok with h | h
    · subst h
      exact ⟨rfl, rfl, rfl, rfl, rfl⟩
    · rw [h]
      exact ⟨map_proj_update st.matchRows id _ _ (fun _ => rfl),
        map_proj_update st.matchRows id _ _ (fun _ => rfl),
        map_proj_update st.matchRows id _ _ (fun _ => rfl),
        map_proj_update st.matchRows id _ _ (fun _ => rfl),
        map_proj_update st.matchRows id _ _ (fun _ => rfl)⟩
  · unfold setMetadata
    exact ⟨map_proj_update st.matchRows id _ _ (fun _ => rfl),
      map_proj_update st.matchRows id _ _ (fun _ => rfl),
      map_proj_update st.matchRows id _ _ (fun _ => rfl),
      map_proj_update st.matchRows id _ _ (fun _ => rfl),
      map_proj_update st.matchRows id _ _ (fun _ => rfl)⟩

theorem c8_initialState_immutable_witness :
    (⟨[⟨"m", "g", some ⟨1, 5⟩, some ⟨0, 0⟩, some ⟨some "g", none, 0⟩, 0, 9⟩],
      [], 0⟩ : Store).matchRows.map (fun m => m.initialState)
      = (⟨[⟨"m", "g", some ⟨0, 0⟩, some ⟨0, 0⟩, some ⟨some "g", none, 0⟩,
          0, 0⟩], [], 0⟩ : Store).matchRows.map (fun m => m.initialState) :=
  ((c8_initialState_immutable
      (⟨[⟨"m", "g", some ⟨0, 0⟩, some ⟨0, 0⟩, some ⟨some "g", none, 0⟩, 0,
        0⟩], [], 0⟩ : Store)
      (⟨[⟨"m", "g", some ⟨1, 5⟩, some ⟨0, 0⟩, some ⟨some "g", none, 0⟩, 0,
        9⟩], [], 0⟩ : Store)
      "m" ⟨1, 5⟩ [] ⟨some "g", none, 0⟩ 9).1 (by rfl)).2.2.1

/-- C9: `listMatches` keeps exactly the rows satisfying the conjunction of
every supplied filter — `gameName` by equality, `updatedBefore` by strict
less-than on the last-update timestamp, `updatedAfter` by strict
greater-than, and `isGameover` by presence of the metadata's gameover
field — returns them ordered by last-update descending, the in-memory
game-over filter being a stable filter of the query's ordering (a sublist,
no re-sort), and projects the surviving rows to their ids. -/
theorem c9_list_order_and_filters (st : Store)
    (opts : Option ListMatchesOpts) :
    (∀ m : MatchRow, m ∈ gameoverFilter opts (queryRows st opts) ↔
      (m ∈ st.matchRows ∧
       (∀ g, optGameName opts = some g → g ≠ "" → m.gameName = g) ∧
       (∀ t, (optWhere opts).bind (fun w => w.updatedBefore) = some t →
         m.updatedAt < t) ∧
       (∀ t, (optWhere opts).bind (fun w => w.updatedAfter) = some t →
         t < m.updatedAt) ∧
       (∀ b, (optWhere opts).bind (fun w => w.isGameover) = some b →
         ∃ md, m.metadata = some md ∧ md.gameover.isSome = b))) ∧
    List.Sorted updatedDesc (gameoverFilter opts (queryRows st opts)) ∧
    List.Sublist (gameoverFilter opts (queryRows st opts))
      (queryRows st opts) ∧
    listMatches st opts
      = (gameoverFilter opts (queryRows st opts)).map (fun m => m.id) := by
  refine ⟨?_, ?_, gameoverFilter_sublist opts _, rfl⟩
  · intro m
    cases hgo : (optWhere opts).bind (fun w => w.isGameover) with
    | none =>
      rw [gameoverFilter_none hgo, mem_queryRows,
        pushableFilters_eq_true_iff]
      constructor
      · rintro ⟨h1, h2, h3, h4⟩
        exact ⟨h1, h2, h3, h4, fun b hb => Option.noConfusion hb⟩
      · rintro ⟨h1, h2, h3, h4, _⟩
        exact ⟨h1, h2, h3, h4⟩
    | some want =>
      rw [gameoverFilter_some hgo, List.mem_filter, mem_queryRows,
        pushableFilters_eq_true_iff, gameoverKeep_eq_true_iff]
      constructor
      · rintro ⟨⟨h1, h2, h3, h4⟩, h5⟩
        refine ⟨h1, h2, h3, h4, fun b hb => ?_⟩
        injection hb with hb1
        rw [← hb1]
        exact h5
      · rintro ⟨h1, h2, h3, h4, h5⟩
        exact ⟨⟨h1, h2, h3, h4⟩, h5 want rfl⟩
  · cases hgo : (optWhere opts).bind (fun w => w.isGameover) with
    | none =>
      rw [gameoverFilter_none hgo]
      exact List.sorted_insertionSort updatedDesc _
    | some want =>
      rw [gameoverFilter_some hgo]
      exact (List.sorted_insertionSort updatedDesc _).filter _

theorem c9_list_order_and_filters_witness :
    (⟨"a", "g1", none, none, some ⟨some "g1", none, 0⟩, 0, 5⟩ : MatchRow)
      ∈ gameoverFilter
          (some ⟨some "g1", some ⟨some false, none, none⟩⟩)
          (queryRows
            (⟨[⟨"a", "g1", none, none, some ⟨some "g1", none, 0⟩, 0, 5⟩],
              [], 0⟩ : Store)
            (some ⟨some "g1", some ⟨some false, none, none⟩⟩)) :=
  ((c9_list_order_and_filters
      (⟨[⟨"a", "g1", none, none, some ⟨some "g1", none, 0⟩, 0, 5⟩], [],
        0⟩ : Store)
      (some ⟨some "g1", some ⟨some false, none, none⟩⟩)).1
    (⟨"a", "g1", none, none, some ⟨some "g1", none, 0⟩, 0, 5⟩ :
      MatchRow)).mpr
    ⟨by decide,
     fun g hg _ => Option.some.inj hg,
     fun t ht => Option.noConfusion ht,
     fun t ht => Option.noConfusion ht,
     fun b hb => by
       have h := Option.some.inj hb
       subst h
       exact ⟨⟨some "g1", none, 0⟩, rfl, rfl⟩⟩

/-- C10: on an id with no match row, the stale-write guard cannot fire; with
an empty deltalog the call succeeds and the database is unchanged (the UPDATE
affects zero rows), while a non-empty deltalog violates the foreign key on
`logs.matchId`, the whole transaction rolls back, and the error propagates
with no rows written. -/
theorem c10_unknown_id_setState (st : Store) (id : String) (s : State)
    (dl : List LogEntry) (now : Int)
    (hno : ∀ m ∈ st.matchRows, ¬ m.id = id) :
    isStale st id s = false ∧
    (dl = [] → setState st id s dl now = Except.ok st) ∧
    (dl ≠ [] → setState st id s dl now
      = Except.error "FOREIGN KEY constraint failed") := by
  have hfind : st.matchRows.find? (fun m => decide (m.id = id)) = none := by
    rw [List.find?_eq_none]
    intro x hx
    simpa using hno x hx
  have hstale : isStale st id s = false := by
    simp only [isStale, hfind]
  have hany : st.matchRows.any (fun m => decide (m.id = id)) = false := by
    rw [List.any_eq_false]
    intro x hx
    simpa using hno x hx
  refine ⟨hstale, ?_, ?_⟩
  · rintro rfl
    rw [setState_not_stale st id s [] now hstale, setStateCommit_empty,
      map_update_eq_self st.matchRows id _ hno]
  · intro hne
    cases dl with
    | nil => exact absurd rfl hne
    | cons e rest =>
      rw [setState_not_stale st id s (e :: rest) now hstale,
        setStateCommit_fk_error st id s e rest now hany]

theorem c10_unknown_id_setState_witness :
    setState (⟨[], [], 0⟩ : Store) "m" ⟨1, 0⟩ [] 5
        = Except.ok (⟨[], [], 0⟩ : Store) ∧
    setState (⟨[], [], 0⟩ : Store) "m" ⟨1, 0⟩ [⟨7⟩] 5
        = Except.error "FOREIGN KEY constraint failed" :=
  ⟨(c10_unknown_id_setState (⟨[], [], 0⟩ : Store) "m" ⟨1, 0⟩ [] 5
      (by intro m hm; exact absurd hm (List.not_mem_nil m))).2.1 rfl,
   (c10_unknown_id_setState (⟨[], [], 0⟩ : Store) "m" ⟨1, 0⟩ [⟨7⟩] 5
      (by intro m hm; exact absurd hm (List.not_mem_nil m))).2.2
      (by simp)⟩

end BgioSqlite
